import Mathlib

/-!
Verification of the Foundry Local Go SDK's model-catalog resolution engine and
download-progress protocol decoder, shallowly embedded in Lean.

Go strings are modelled as lists of characters (`GoStr`); the ASCII fragment of
`strings.ToLower` / `strings.EqualFold` is used, which coincides with Go's
behaviour on the ASCII identifiers the catalog uses.  Machine integers from
`strconv.Atoi` are modelled as `Int` with the explicit int64 range check.
-/

namespace FoundryLocal

deriving instance DecidableEq for Except

/-- Go strings, modelled as lists of characters. -/
abbrev GoStr := List Char

/-- Models `strings.ToLower` (ASCII fragment; `Char.toLower` lowercases A-Z). -/
def goToLower (s : GoStr) : GoStr := s.map Char.toLower

/-- Models `strings.EqualFold` (ASCII simple case folding: equal after lowering). -/
def goEqualFold (a b : GoStr) : Bool := goToLower a == goToLower b

/-- Models `strings.HasPrefix s pre`. -/
def goStartsWith (s pre : GoStr) : Bool := pre.isPrefixOf s

/-- Models `strings.Contains s sub`: `sub` occurs contiguously in `s`. -/
def goContains : GoStr → GoStr → Bool
  | s, sub =>
    if sub.isPrefixOf s then true
    else
      match s with
      | [] => false
      | _ :: t => goContains t sub

/-- Models `strings.TrimSpace` (trim leading and trailing whitespace). -/
def goTrimSpace (s : GoStr) : GoStr :=
  ((s.dropWhile Char.isWhitespace).reverse.dropWhile Char.isWhitespace).reverse

/-- Models `strings.Fields`: split around runs of whitespace, dropping empties. -/
def goFields (s : GoStr) : List GoStr :=
  (s.splitOnP Char.isWhitespace).filter (fun w => w ≠ [])

/-- Numeric value of a run of decimal digit characters (most significant first). -/
def digitsVal (l : GoStr) : Nat := l.foldl (fun a c => a * 10 + (c.toNat - 48)) 0

/-- Models `strconv.Atoi`: optional sign, then decimal digits; the whole string
must be consumed, and the value must fit in a 64-bit signed integer. -/
def goAtoi (s : GoStr) : Option Int :=
  match s with
  | [] => none
  | c :: rest =>
    let signDigits : Int × GoStr :=
      if c = '-' then (-1, rest) else if c = '+' then (1, rest) else (1, s)
    if signDigits.2 = [] then none
    else if signDigits.2.all Char.isDigit then
      let v : Int := signDigits.1 * (digitsVal signDigits.2 : Int)
      if -(2 ^ 63) ≤ v ∧ v < 2 ^ 63 then some v else none
    else none

/-- The segment of `s` after the last occurrence of `sep` (all of `s` when `sep`
does not occur).  This is the last element of Go's `strings.Split(s, sep)`. -/
def lastSegment (sep : Char) (s : GoStr) : GoStr :=
  (s.reverse.takeWhile (fun c => c ≠ sep)).reverse

/-- Embeds `GetVersion` (manager.go): empty id or no ':' separator gives -1;
otherwise `strconv.Atoi` of the segment after the last ':' (Split + last part),
with parse failure giving -1. -/
def GetVersion (modelID : GoStr) : Int :=
  if modelID = [] then -1
  else if ':' ∈ modelID then
    match goAtoi (lastSegment ':' modelID) with
    | some v => v
    | none => -1
  else -1

/-- Device types, per the `DeviceType` string constants of the SDK. -/
inductive DeviceType
  | cpu
  | gpu
  | npu
  | invalid
deriving DecidableEq, Repr

/-- Embeds the `Runtime` struct (the two fields the algorithms read). -/
structure Runtime where
  deviceType : DeviceType
  executionProvider : GoStr
deriving DecidableEq, Repr

/-- Embeds `ModelInfo`, restricted to the fields the resolution and
classification algorithms read; the remaining fields are opaque passthrough. -/
structure ModelInfo where
  id : GoStr
  aliasName : GoStr
  runtime : Runtime
  epOverride : GoStr
deriving DecidableEq, Repr

/-- Go error values observed by the resolver: the sentinel
`ErrModelNotInCatalog`, or any other error carrying its message. -/
inductive GoError
  | modelNotInCatalog
  | other (msg : GoStr)
deriving DecidableEq, Repr

/-- The token `"CUDAExecutionProvider"` compared against in ListCatalogModels. -/
def cudaEP : GoStr := "CUDAExecutionProvider".toList

/-- The id token `"-generic-gpu"` marking generic-GPU variants. -/
def genericGpuTok : GoStr := "-generic-gpu".toList

/-- The lowercase token `"cuda"` written into `EPOverride`. -/
def cudaTok : GoStr := "cuda".toList

/-- Embeds the CUDA check of ListCatalogModels: some variant's
`Runtime.ExecutionProvider` equals `"CUDAExecutionProvider"` exactly. -/
def hasCUDACapableVariant (models : List ModelInfo) : Bool :=
  models.any (fun mi => mi.runtime.executionProvider = cudaEP)

/-- Embeds the execution-provider override loop of ListCatalogModels: when a
CUDA-capable variant exists, every variant whose lowercased id contains
`"-generic-gpu"` gets `EPOverride = "cuda"`; otherwise nothing changes. -/
def annotate (models : List ModelInfo) : List ModelInfo :=
  if hasCUDACapableVariant models then
    models.map (fun mi =>
      if goContains (goToLower mi.id) genericGpuTok then
        { mi with epOverride := cudaTok }
      else mi)
  else models

/-- Embeds the first loop of GetModelInfo: first variant whose id is
case-insensitively equal to the reference. -/
def findExact (catalog : List ModelInfo) (ref : GoStr) : Option ModelInfo :=
  catalog.find? (fun mi => goEqualFold mi.id ref)

/-- Embeds the second loop of GetModelInfo: scan the catalog keeping the
variant whose lowercased id starts with `pre` and whose `GetVersion` strictly
exceeds the best version seen so far (initially -1, with no best variant). -/
def bestPrefixAux (pre : GoStr) : List ModelInfo → Int → Option ModelInfo → Option ModelInfo
  | [], _, best => best
  | mi :: rest, bestVersion, best =>
    if goStartsWith (goToLower mi.id) pre = true ∧ GetVersion mi.id > bestVersion then
      bestPrefixAux pre rest (GetVersion mi.id) (some mi)
    else
      bestPrefixAux pre rest bestVersion best

/-- Embeds the pure resolution part of `Manager.GetModelInfo` over a fetched
catalog: exact id match, then id-prefix with best version, then alias match
filtered by the optional device, then the Windows generic-GPU to CPU fallback;
`ErrModelNotInCatalog` when the filtered alias candidates are empty. -/
def resolveCatalog (useWindowsFallback : Bool) (catalog : List ModelInfo)
    (ref : GoStr) (device : Option DeviceType) : Except GoError ModelInfo :=
  match findExact catalog ref with
  | some mi => .ok mi
  | none =>
    match bestPrefixAux (goToLower ref ++ [':']) catalog (-1) none with
    | some best => .ok best
    | none =>
      let aliasMatches := catalog.filter (fun mi => goEqualFold mi.aliasName ref)
      let filtered :=
        match device with
        | none => aliasMatches
        | some d => aliasMatches.filter (fun mi => mi.runtime.deviceType = d)
      match filtered with
      | [] => .error .modelNotInCatalog
      | candidate :: _ =>
        if useWindowsFallback = true ∧
            goContains (goToLower candidate.id) genericGpuTok = true ∧
            candidate.epOverride = [] then
          match catalog.find? (fun mi =>
              goEqualFold mi.aliasName ref && mi.runtime.deviceType = DeviceType.cpu) with
          | some fb => .ok fb
          | none => .ok candidate
        else .ok candidate

/-- The mutable state of `Manager` that the catalog code touches: the cached
catalog (nil pointer modelled as `none`) and the Windows fallback flag. -/
structure Manager where
  catalogModels : Option (List ModelInfo)
  useWindowsFallback : Bool
deriving DecidableEq, Repr

/-- Outcome of the catalog-listing HTTP collaborator consumed by
ListCatalogModels: a transport error from the request, a non-success HTTP
status, a body that fails to decode, or a decoded body (where `none` is the
JSON `null` body that decodes to a nil slice). -/
inductive FetchResult
  | transportErr (e : GoStr)
  | httpStatus (code : Nat)
  | parseErr (e : GoStr)
  | body (models : Option (List ModelInfo))
deriving DecidableEq, Repr

/-- The error message built for a non-success HTTP status. -/
def statusMsg (code : Nat) : GoStr :=
  "received non-success status code ".toList ++ (Nat.repr code).toList

/-- Embeds `Manager.ListCatalogModels`: return the cache when present;
otherwise consult the listing collaborator, propagate its errors, treat a nil
decoded slice as a successful empty (uncached) result, and otherwise store and
return the CUDA-annotated catalog. -/
def listCatalogModels (m : Manager) (fetch : FetchResult) :
    Except GoError (List ModelInfo) × Manager :=
  match m.catalogModels with
  | some cached => (.ok cached, m)
  | none =>
    match fetch with
    | .transportErr e => (.error (.other e), m)
    | .httpStatus code => (.error (.other (statusMsg code)), m)
    | .parseErr e => (.error (.other e), m)
    | .body none => (.ok [], m)
    | .body (some models) =>
      let annotated := annotate models
      (.ok annotated, { m with catalogModels := some annotated })

/-- Embeds `Manager.GetModelInfo`: list the catalog (through the cache), map
any listing failure to `ErrModelNotInCatalog`, then resolve the reference. -/
def getModelInfo (m : Manager) (fetch : FetchResult) (ref : GoStr)
    (device : Option DeviceType) : Except GoError ModelInfo × Manager :=
  match listCatalogModels m fetch with
  | (.error _, m') => (.error .modelNotInCatalog, m')
  | (.ok catalog, m') => (resolveCatalog m'.useWindowsFallback catalog ref device, m')

/-- Download events sent on the progress channel.  `progress p` is a
`ModelDownloadProgress` with `IsCompleted = false` (from `NewDownloadProgress`),
`completedEv` one with `IsCompleted = true` and the model info (from
`NewDownloadCompleted`), and `failed msg` one with `IsCompleted = true` and the
error message (from `NewDownloadError`). -/
inductive DownloadEvent
  | progress (pct : ℚ)
  | completedEv (mi : ModelInfo)
  | failed (msg : GoStr)
deriving DecidableEq, Repr

/-- Terminal events are those with `IsCompleted = true`. -/
def isTerminal : DownloadEvent → Bool
  | .progress _ => false
  | .completedEv _ => true
  | .failed _ => true

/-- The opening brace character. -/
def braceOpen : Char := Char.ofNat 123

/-- The closing brace character. -/
def braceClose : Char := Char.ofNat 125

/-- Parses an optional sign, decimal digits, and an optional fractional part,
as `fmt.Sscanf` with `%f` does on the percentage tokens of the protocol; the
decimal literal is represented exactly as a rational.  `none` when no digits
are present. -/
def parseDecimal (s : GoStr) : Option ℚ :=
  let signRest : ℚ × GoStr :=
    match s with
    | '-' :: r => (-1, r)
    | '+' :: r => (1, r)
    | _ => (1, s)
  let intPart := signRest.2.takeWhile Char.isDigit
  let rest2 := signRest.2.dropWhile Char.isDigit
  match rest2 with
  | '.' :: frac0 =>
    let fracPart := frac0.takeWhile Char.isDigit
    if intPart = [] ∧ fracPart = [] then none
    else
      some (signRest.1 *
        ((digitsVal intPart : ℚ) + (digitsVal fracPart : ℚ) / (10 ^ fracPart.length)))
  | _ =>
    if intPart = [] then none
    else some (signRest.1 * (digitsVal intPart : ℚ))

/-- The percentage value `fmt.Sscanf(percentStr, "%f", &percent)` leaves in
`percent`: the parsed value, or 0 when the scan fails (the scan error is
ignored and the variable keeps its zero value). -/
def scanPercent (s : GoStr) : ℚ := (parseDecimal s).getD 0

/-- A progress line: lowercased line starts with "total", the line contains
"Downloading" and contains "%". -/
def isProgressLine (line : GoStr) : Bool :=
  goStartsWith (goToLower line) ("total".toList) &&
    goContains line ("Downloading".toList) && goContains line ['%']

/-- Events the scanning loop emits for one progress-shaped line: the first
whitespace-delimited token ending in '%' is trimmed of its '%' and scanned;
no event when no such token exists. -/
def progressEventsOf (line : GoStr) : List DownloadEvent :=
  match (goFields line).find? (fun p => p.getLast? = some '%') with
  | some p => [.progress (scanPercent (p.dropLast))]
  | none => []

/-- A completion-marker line: contains "[DONE]" or "All Completed". -/
def isDoneLine (line : GoStr) : Bool :=
  goContains line ("[DONE]".toList) || goContains line ("All Completed".toList)

/-- Embeds the line-scanning loop of `DownloadModelWithProgress`.  State: the
`collectingJSON` flag and the JSON builder contents.  Returns the emitted
events and the final builder contents; the loop stops early when a collected
line's trimmed content is exactly the closing brace (`completed`). -/
def decodeLoop : List GoStr → Bool → GoStr → List DownloadEvent × GoStr
  | [], _, buf => ([], buf)
  | line :: rest, collecting, buf =>
    if isProgressLine line then
      let tail := decodeLoop rest collecting buf
      (progressEventsOf line ++ tail.1, tail.2)
    else if isDoneLine line then
      decodeLoop rest true buf
    else if collecting = true ∧ goStartsWith (goTrimSpace line) [braceOpen] = true then
      decodeLoop rest collecting (buf ++ line ++ ['\n'])
    else if collecting = true ∧ buf ≠ [] then
      let buf' := buf ++ line ++ ['\n']
      if goTrimSpace line = [braceClose] then ([], buf')
      else decodeLoop rest collecting buf'
    else
      decodeLoop rest collecting buf

/-- JSON values of the flat completion object (`success`, `errorMessage`). -/
inductive JVal
  | jbool (b : Bool)
  | jstr (s : GoStr)
  | jnull
deriving DecidableEq, Repr

/-- Drop leading JSON whitespace. -/
def skipWs (s : GoStr) : GoStr := s.dropWhile Char.isWhitespace

/-- Parse a JSON string literal (no escape handling; the protocol's completion
objects carry plain messages): the content up to the closing quote. -/
def parseJStr : GoStr → Option (GoStr × GoStr)
  | '"' :: rest =>
    let content := rest.takeWhile (fun c => c ≠ '"')
    match rest.dropWhile (fun c => c ≠ '"') with
    | '"' :: rem => some (content, rem)
    | _ => none
  | _ => none

/-- Parse a JSON value of the completion object: `true`, `false`, `null`, or a
string literal. -/
def parseJVal (s : GoStr) : Option (JVal × GoStr) :=
  if ("true".toList).isPrefixOf s then some (.jbool true, s.drop 4)
  else if ("false".toList).isPrefixOf s then some (.jbool false, s.drop 5)
  else if ("null".toList).isPrefixOf s then some (.jnull, s.drop 4)
  else
    match parseJStr s with
    | some (str, rem) => some (.jstr str, rem)
    | none => none

/-- Parse the members of a flat JSON object after its opening brace, ending at
the closing brace.  Fuel bounds the recursion by the input length. -/
def parseMembers : Nat → GoStr → Option (List (GoStr × JVal) × GoStr)
  | 0, _ => none
  | fuel + 1, s =>
    match parseJStr (skipWs s) with
    | none => none
    | some (key, rem) =>
      match skipWs rem with
      | ':' :: rem2 =>
        match parseJVal (skipWs rem2) with
        | none => none
        | some (v, rem3) =>
          match skipWs rem3 with
          | ',' :: rem4 =>
            match parseMembers fuel rem4 with
            | some (ms, rem5) => some ((key, v) :: ms, rem5)
            | none => none
          | c :: rem4 =>
            if c = braceClose then some ([(key, v)], rem4) else none
          | [] => none
      | _ => none

/-- The error message the model attaches to a completion object that fails to
parse (standing for the message of Go's `json.Unmarshal` error). -/
def jsonErrMsg : GoStr := "invalid completion JSON".toList

/-- Models `json.Unmarshal` of the buffered completion text into a flat
`map[string]any` object with boolean / string / null values (the shape the
protocol's completion object uses); trailing whitespace is allowed, anything
else is a parse error. -/
def parseJsonObj (s : GoStr) : Except GoStr (List (GoStr × JVal)) :=
  match skipWs s with
  | c :: rest =>
    if c = braceOpen then
      match skipWs rest with
      | c' :: rem =>
        if c' = braceClose then
          if skipWs rem = [] then .ok [] else .error jsonErrMsg
        else
          match parseMembers (rest.length + 1) rest with
          | some (ms, rem') => if skipWs rem' = [] then .ok ms else .error jsonErrMsg
          | none => .error jsonErrMsg
      | [] => .error jsonErrMsg
    else .error jsonErrMsg
  | [] => .error jsonErrMsg

/-- Map lookup on the decoded object (later duplicate keys win, as for Go's
`map[string]any`). -/
def jlookup (ms : List (GoStr × JVal)) (key : GoStr) : Option JVal :=
  (ms.reverse.find? (fun kv => kv.1 = key)).map Prod.snd

/-- The terminal failure message when the stream ends with nothing buffered. -/
def noCompletionMsg : GoStr := "No completion response received".toList

/-- The fallback failure message when `errorMessage` is absent or not a string. -/
def unknownErrorMsg : GoStr := "unknown error".toList

/-- The JSON key "success". -/
def successKey : GoStr := "success".toList

/-- The JSON key "errorMessage". -/
def errorMessageKey : GoStr := "errorMessage".toList

/-- Go's `success, ok := result["success"].(bool); ok && success`: the decoded
object holds key "success" with boolean value `true`. -/
def successIsTrue (ms : List (GoStr × JVal)) : Bool :=
  match jlookup ms successKey with
  | some (.jbool true) => true
  | _ => false

/-- Failure message of an unsuccessful completion object: `errorMessage` when
it is present as a string, else `"unknown error"`. -/
def failMsg (ms : List (GoStr × JVal)) : GoStr :=
  match jlookup ms errorMessageKey with
  | some (.jstr s) => s
  | _ => unknownErrorMsg

/-- Embeds the post-loop logic of `DownloadModelWithProgress`: empty buffer
fails with `noCompletionMsg`; a buffer that fails to parse fails with the parse
error; `success == true` completes with the model info; otherwise the failure
message is `errorMessage` when it is a string, else `unknownErrorMsg`. -/
def finishDecode (mi : ModelInfo) (buf : GoStr) : DownloadEvent :=
  if buf = [] then .failed noCompletionMsg
  else
    match parseJsonObj buf with
    | .error e => .failed e
    | .ok ms => if successIsTrue ms then .completedEv mi else .failed (failMsg ms)

/-- The full event sequence of one decode session of
`DownloadModelWithProgress` that reads the stream to its end: the cached
short-circuit emits a single completion; otherwise the scanning loop's events
followed by the terminal event computed from the final buffer.  The channel is
closed after the last listed event (`defer close(progressChan)`). -/
def downloadEvents (mi : ModelInfo) (alreadyCached force : Bool)
    (lines : List GoStr) : List DownloadEvent :=
  if alreadyCached = true ∧ force = false then [.completedEv mi]
  else
    let res := decodeLoop lines false []
    res.1 ++ [finishDecode mi res.2]

/-- Events a processed line contributes in the scanning loop: progress events
for progress-shaped lines, nothing otherwise. -/
def perLineEvents (line : GoStr) : List DownloadEvent :=
  if isProgressLine line then progressEventsOf line else []

/-- Version value a best-so-far state represents: the best variant's version,
or the running best version when no variant has been kept yet. -/
def verOf (bv : Int) : Option ModelInfo → Int
  | none => bv
  | some x => GetVersion x.id

/-! Concrete data used by witnesses and counterexamples. -/

/-- A sample variant for decoder witnesses. -/
def mi0 : ModelInfo := ⟨"m".toList, "a".toList, ⟨.cpu, "CPU".toList⟩, []⟩

/-- First line of the concrete stream of claim C7. -/
def c7Line1 : GoStr := "Total 0.00% Downloading model.onnx.data".toList

/-- Completion marker line of the concrete stream of claim C7. -/
def c7Line2 : GoStr := "[DONE]".toList

/-- Completion object line of the concrete stream of claim C7. -/
def c7Line3 : GoStr := "\x7b\"success\": true, \"errorMessage\": null\x7d".toList

/-- Buffer whose object parses with `success = false` and a string message. -/
def bufFalseMsg : GoStr :=
  ("\x7b\"success\": false, \"errorMessage\": \"Download error occurred.\"\x7d\n").toList

/-- Buffer whose object parses with `success = false` and no `errorMessage`. -/
def bufFalseNoMsg : GoStr := ("\x7b\"success\": false\x7d\n").toList

/-- Buffer whose object parses with `success = true`. -/
def bufTrue : GoStr := ("\x7b\"success\": true\x7d\n").toList

/-- A generic-GPU variant (alias "m") with no override, used against C1. -/
def c1gpu : ModelInfo := ⟨"m-generic-gpu".toList, "m".toList, ⟨.gpu, "WebGPU".toList⟩, []⟩

/-- A CPU variant sharing alias "m", used against C1. -/
def c1cpu : ModelInfo := ⟨"m-cpu".toList, "m".toList, ⟨.cpu, "CPU".toList⟩, []⟩

/-- A variant with uppercase id "ABC", used against C9. -/
def c9A : ModelInfo := ⟨"ABC".toList, [], ⟨.cpu, "CPU".toList⟩, []⟩

/-- A distinct variant with lowercase id "abc", used against C9. -/
def c9a : ModelInfo := ⟨"abc".toList, [], ⟨.gpu, "WebGPU".toList⟩, []⟩

/-- A prefix-matching variant with version suffix -5, used against C3. -/
def c3a : ModelInfo := ⟨"p:-5".toList, [], ⟨.cpu, "CPU".toList⟩, []⟩

/-- A prefix-matching variant with version suffix -3, used against C3. -/
def c3b : ModelInfo := ⟨"p:-3".toList, [], ⟨.cpu, "CPU".toList⟩, []⟩

/-- A prefix-matching variant with version 1, used in the C3 witness. -/
def c3p1 : ModelInfo := ⟨"p:1".toList, [], ⟨.cpu, "CPU".toList⟩, []⟩

/-- A prefix-matching variant with version 2, used in the C3 witness. -/
def c3p2 : ModelInfo := ⟨"p:2".toList, [], ⟨.cpu, "CPU".toList⟩, []⟩

/-- A variant with an unparsable version suffix, used in the C10 witness. -/
def c10v : ModelInfo := ⟨"name:v1".toList, [], ⟨.cpu, "CPU".toList⟩, []⟩

/-- A mixed-case-id variant used in the C9 witness. -/
def c9q : ModelInfo := ⟨"Qwen:1".toList, "q".toList, ⟨.cpu, "CPU".toList⟩, []⟩

/-- A generic-GPU variant without override, used in the C8 witness. -/
def c8g1 : ModelInfo := ⟨"m-Generic-GPU:1".toList, "m".toList, ⟨.gpu, "WebGPU".toList⟩, []⟩

/-- A CUDA-capable variant, used in the C8 witness. -/
def c8g2 : ModelInfo :=
  ⟨"m-cuda-gpu:1".toList, "m".toList, ⟨.gpu, "CUDAExecutionProvider".toList⟩, []⟩

/-! Helper lemmas about the embedded primitives. -/

/-- Case-insensitive equality is equality of the lowered strings. -/
theorem goEqualFold_iff (a b : GoStr) :
    goEqualFold a b = true ↔ goToLower a = goToLower b := by
  simp [goEqualFold]

/-- `takeWhile` over a list that satisfies the predicate followed by a
failing element stops exactly at that element. -/
theorem takeWhile_append_stop (p : Char → Bool) :
    ∀ (l1 : GoStr) (a : Char) (l2 : GoStr),
      (∀ x ∈ l1, p x = true) → p a = false →
      (l1 ++ a :: l2).takeWhile p = l1 := by
  intro l1
  induction l1 with
  | nil =>
    intro a l2 _ ha
    simp [List.takeWhile_cons, ha]
  | cons x xs ih =>
    intro a l2 h ha
    have hx : p x = true := h x (by simp)
    simp only [List.cons_append, List.takeWhile_cons, hx, if_true]
    rw [ih a l2 (fun y hy => h y (by simp [hy])) ha]

/-- The last-separator segment of `name ++ ':' :: t` is `t` when `t` itself
contains no separator. -/
theorem lastSegment_append (name t : GoStr) (h : ':' ∉ t) :
    lastSegment ':' (name ++ ':' :: t) = t := by
  unfold lastSegment
  have hrev : (name ++ ':' :: t).reverse = t.reverse ++ ':' :: name.reverse := by
    simp [List.reverse_append]
  rw [hrev, takeWhile_append_stop _ t.reverse ':' name.reverse ?hall ?hstop]
  · exact List.reverse_reverse t
  case hall =>
    intro x hx
    have : x ∈ t := List.mem_reverse.mp hx
    simp only [decide_eq_true_eq]
    intro he
    exact h (he ▸ this)
  case hstop => simp

/-- When every prefix match in the remaining list has version at most the
running best, the scan keeps the current best variant. -/
theorem bestPrefixAux_stay (pre : GoStr) :
    ∀ (l : List ModelInfo) (bv : Int) (best : Option ModelInfo),
      (∀ mi ∈ l, goStartsWith (goToLower mi.id) pre = true → GetVersion mi.id ≤ bv) →
      bestPrefixAux pre l bv best = best := by
  intro l
  induction l with
  | nil => intro bv best _; rfl
  | cons mi rest ih =>
    intro bv best h
    simp only [bestPrefixAux]
    split_ifs with hc
    · exact absurd hc (by push_neg; intro hpm; exact h mi (by simp) hpm)
    · exact ih bv best (fun x hx hpm => h x (by simp [hx]) hpm)

/-- Invariant of the best-version scan: the result is a prefix match drawn
from the list (or the incoming best), its version bounds every prefix match
of the list, and a `none` result means there was no incoming best. -/
theorem bestPrefixAux_inv (pre : GoStr) :
    ∀ (l : List ModelInfo) (bv : Int) (best : Option ModelInfo),
      (∀ x, best = some x →
        goStartsWith (goToLower x.id) pre = true ∧ GetVersion x.id = bv) →
      (∀ x, bestPrefixAux pre l bv best = some x →
        goStartsWith (goToLower x.id) pre = true ∧ (x ∈ l ∨ best = some x)) ∧
      (∀ mi ∈ l, goStartsWith (goToLower mi.id) pre = true →
        GetVersion mi.id ≤ verOf bv (bestPrefixAux pre l bv best)) ∧
      bv ≤ verOf bv (bestPrefixAux pre l bv best) ∧
      (bestPrefixAux pre l bv best = none → best = none) := by
  intro l
  induction l with
  | nil =>
    intro bv best hb
    refine ⟨?_, ?_, ?_, ?_⟩
    · intro x hx
      exact ⟨(hb x hx).1, Or.inr hx⟩
    · intro mi hmi
      exact absurd hmi (List.not_mem_nil mi)
    · cases best with
      | none => simp [bestPrefixAux, verOf]
      | some x => simp [bestPrefixAux, verOf, (hb x rfl).2]
    · intro h
      simpa [bestPrefixAux] using h
  | cons mi rest ih =>
    intro bv best hb
    simp only [bestPrefixAux]
    split_ifs with hc
    · obtain ⟨hpm, hgt⟩ := hc
      have hb' : ∀ x, (some mi : Option ModelInfo) = some x →
          goStartsWith (goToLower x.id) pre = true ∧ GetVersion x.id = GetVersion mi.id := by
        intro x hx
        cases hx
        exact ⟨hpm, rfl⟩
      obtain ⟨ih1, ih2, ih3, ih4⟩ := ih (GetVersion mi.id) (some mi) hb'
      have hne : bestPrefixAux pre rest (GetVersion mi.id) (some mi) ≠ none := by
        intro h
        exact Option.noConfusion (ih4 h)
      obtain ⟨y, hy⟩ := Option.ne_none_iff_exists'.mp hne
      refine ⟨?_, ?_, ?_, ?_⟩
      · intro x hx
        obtain ⟨h1, h2⟩ := ih1 x hx
        refine ⟨h1, ?_⟩
        rcases h2 with h2 | h2
        · exact Or.inl (by simp [h2])
        · cases h2
          exact Or.inl (by simp)
      · intro w hw hpw
        rcases List.mem_cons.mp hw with hw | hw
        · subst hw
          calc GetVersion w.id ≤ verOf (GetVersion w.id)
                (bestPrefixAux pre rest (GetVersion w.id) (some w)) := ih3
            _ = verOf bv (bestPrefixAux pre rest (GetVersion w.id) (some w)) := by
                rw [hy]; rfl
        · calc GetVersion w.id
              ≤ verOf (GetVersion mi.id) (bestPrefixAux pre rest (GetVersion mi.id) (some mi)) :=
                ih2 w hw hpw
            _ = verOf bv (bestPrefixAux pre rest (GetVersion mi.id) (some mi)) := by
                rw [hy]; rfl
      · have h1 : bv ≤ GetVersion mi.id := le_of_lt hgt
        have h2 : GetVersion mi.id ≤
            verOf (GetVersion mi.id) (bestPrefixAux pre rest (GetVersion mi.id) (some mi)) := ih3
        have h3 : verOf (GetVersion mi.id) (bestPrefixAux pre rest (GetVersion mi.id) (some mi)) =
            verOf bv (bestPrefixAux pre rest (GetVersion mi.id) (some mi)) := by
          rw [hy]; rfl
        exact le_trans h1 (h3 ▸ h2)
      · intro h
        exact absurd h hne
    · obtain ⟨ih1, ih2, ih3, ih4⟩ := ih bv best hb
      refine ⟨?_, ?_, ih3, ih4⟩
      · intro x hx
        obtain ⟨h1, h2⟩ := ih1 x hx
        refine ⟨h1, ?_⟩
        rcases h2 with h2 | h2
        · exact Or.inl (by simp [h2])
        · exact Or.inr h2
      · intro w hw hpw
        rcases List.mem_cons.mp hw with hw | hw
        · subst hw
          have hle : GetVersion w.id ≤ bv := by
            by_contra hgt
            exact hc ⟨hpw, lt_of_not_le hgt⟩
          exact le_trans hle ih3
        · exact ih2 w hw hpw

/-- When no variant's id case-folds to the reference the exact-match scan
finds nothing. -/
theorem findExact_eq_none (catalog : List ModelInfo) (ref : GoStr)
    (h : ∀ mi ∈ catalog, goEqualFold mi.id ref = false) :
    findExact catalog ref = none := by
  unfold findExact
  rw [List.find?_eq_none]
  intro x hx
  simp [h x hx]

/-- With pairwise-distinct lowered ids, the exact-match scan of any reference
that case-folds to a member's id returns exactly that member. -/
theorem findExact_unique :
    ∀ (catalog : List ModelInfo) (v : ModelInfo) (r : GoStr),
      (catalog.map (fun mi => goToLower mi.id)).Pairwise (fun a b => a ≠ b) →
      v ∈ catalog → goEqualFold v.id r = true →
      findExact catalog r = some v := by
  intro catalog
  induction catalog with
  | nil =>
    intro v r _ hv _
    exact absurd hv (List.not_mem_nil v)
  | cons w rest ih =>
    intro v r huniq hv hr
    rw [List.map_cons] at huniq
    have hpw := List.pairwise_cons.mp huniq
    rcases List.mem_cons.mp hv with hv | hv
    · subst hv
      simp [findExact, List.find?, hr]
    · have hwfalse : goEqualFold w.id r = false := by
        by_contra hne
        have hw : goEqualFold w.id r = true := by
          cases hq : goEqualFold w.id r
          · exact absurd hq hne
          · rfl
        have h1 : goToLower w.id = goToLower r := (goEqualFold_iff _ _).mp hw
        have h2 : goToLower v.id = goToLower r := (goEqualFold_iff _ _).mp hr
        have hmem : goToLower v.id ∈ rest.map (fun mi => goToLower mi.id) :=
          List.mem_map_of_mem _ hv
        exact hpw.1 (goToLower v.id) hmem (h1.trans h2.symm)
      have hrest := ih v r hpw.2 hv hr
      simp only [findExact, List.find?, hwfalse] at hrest ⊢
      exact hrest

/-- The terminal event computed from the final buffer is always terminal. -/
theorem finishDecode_isTerminal (mi : ModelInfo) (buf : GoStr) :
    isTerminal (finishDecode mi buf) = true := by
  unfold finishDecode
  split_ifs
  · rfl
  · cases hp : parseJsonObj buf with
    | error e => rfl
    | ok ms =>
      by_cases hs : successIsTrue ms = true
      · simp [hs, isTerminal]
      · simp [hs, isTerminal]

/-- A line's contributed events are never terminal. -/
theorem perLineEvents_not_terminal (line : GoStr) :
    ∀ e ∈ perLineEvents line, isTerminal e = false := by
  intro e he
  unfold perLineEvents at he
  split_ifs at he
  · unfold progressEventsOf at he
    cases hf : (goFields line).find? (fun p => p.getLast? = some '%') with
    | none => rw [hf] at he; exact absurd he (List.not_mem_nil e)
    | some p =>
      rw [hf] at he
      have : e = .progress (scanPercent p.dropLast) := by simpa using he
      rw [this]
      rfl
  · exact absurd he (List.not_mem_nil e)

/-- The scanning loop's event list is the concatenation of the per-line
events of the processed initial segment of the stream, in stream order. -/
theorem decodeLoop_events_join :
    ∀ (lines : List GoStr) (collecting : Bool) (buf : GoStr),
      ∃ k, (decodeLoop lines collecting buf).1 =
        ((lines.take k).map perLineEvents).flatten := by
  intro lines
  induction lines with
  | nil =>
    intro collecting buf
    exact ⟨0, by simp [decodeLoop]⟩
  | cons line rest ih =>
    intro collecting buf
    simp only [decodeLoop]
    split_ifs with h1 h2 h3 h4 h5
    · obtain ⟨k, hk⟩ := ih collecting buf
      refine ⟨k + 1, ?_⟩
      simp only [List.take_succ_cons, List.map_cons, List.flatten_cons]
      rw [hk]
      simp [perLineEvents, h1]
    · obtain ⟨k, hk⟩ := ih true buf
      refine ⟨k + 1, ?_⟩
      simp only [List.take_succ_cons, List.map_cons, List.flatten_cons]
      rw [hk]
      simp [perLineEvents, h1]
    · obtain ⟨k, hk⟩ := ih collecting (buf ++ line ++ ['\n'])
      refine ⟨k + 1, ?_⟩
      simp only [List.take_succ_cons, List.map_cons, List.flatten_cons]
      rw [hk]
      simp [perLineEvents, h1]
    · exact ⟨0, by simp⟩
    · obtain ⟨k, hk⟩ := ih collecting (buf ++ line ++ ['\n'])
      refine ⟨k + 1, ?_⟩
      simp only [List.take_succ_cons, List.map_cons, List.flatten_cons]
      rw [hk]
      simp [perLineEvents, h1]
    · obtain ⟨k, hk⟩ := ih collecting buf
      refine ⟨k + 1, ?_⟩
      simp only [List.take_succ_cons, List.map_cons, List.flatten_cons]
      rw [hk]
      simp [perLineEvents, h1]

/-- Every event the scanning loop emits is a non-terminal progress event. -/
theorem decodeLoop_not_terminal (lines : List GoStr) (collecting : Bool) (buf : GoStr) :
    ∀ e ∈ (decodeLoop lines collecting buf).1, isTerminal e = false := by
  obtain ⟨k, hk⟩ := decodeLoop_events_join lines collecting buf
  rw [hk]
  intro e he
  obtain ⟨l, hl, hel⟩ := List.mem_flatten.mp he
  obtain ⟨line, _, hline⟩ := List.mem_map.mp hl
  exact perLineEvents_not_terminal line e (hline ▸ hel)

/-! Claim theorems. -/

/-- C1 (counterexample): with the Windows fallback flag enabled, resolving the
alias "m" with a GPU device filter returns the CPU variant `c1cpu`, whose
device type differs from the filter — so the resolver can return a variant of
a non-matching device type when the fallback is enabled. -/
theorem c1_fallback_device_mismatch :
    resolveCatalog true [c1gpu, c1cpu] ("m".toList) (some .gpu) = .ok c1cpu ∧
    c1cpu.runtime.deviceType ≠ DeviceType.gpu := by decide

/-- C1 (amended): for an alias reference (no exact id match, no id-prefix
match) with a device filter, if the filter eliminates every alias candidate the
resolver returns `ErrModelNotInCatalog`; and when the Windows CPU fallback flag
is disabled, the resolver never returns a variant whose device type differs
from the filter. -/
theorem c1_filtered_alias_notfound (catalog : List ModelInfo) (ref : GoStr)
    (d : DeviceType) (fb : Bool)
    (hex : ∀ mi ∈ catalog, goEqualFold mi.id ref = false)
    (hpre : ∀ mi ∈ catalog,
      goStartsWith (goToLower mi.id) (goToLower ref ++ [':']) = false) :
    ((catalog.filter (fun mi => goEqualFold mi.aliasName ref)).filter
        (fun mi => mi.runtime.deviceType = d) = [] →
      resolveCatalog fb catalog ref (some d) = .error .modelNotInCatalog) ∧
    (fb = false → ∀ v, resolveCatalog fb catalog ref (some d) = .ok v →
      v.runtime.deviceType = d) := by
  have hfe := findExact_eq_none catalog ref hex
  have hbp : bestPrefixAux (goToLower ref ++ [':']) catalog (-1) none = none :=
    bestPrefixAux_stay _ catalog (-1) none
      (fun mi hmi hpm => absurd hpm (by simp [hpre mi hmi]))
  constructor
  · intro hnil
    simp only [resolveCatalog, hfe, hbp]
    rw [hnil]
  · intro hfb v hv
    subst hfb
    simp only [resolveCatalog, hfe, hbp] at hv
    cases hfl : (catalog.filter (fun mi => goEqualFold mi.aliasName ref)).filter
        (fun mi => mi.runtime.deviceType = d) with
    | nil =>
      rw [hfl] at hv
      exact absurd hv (by simp)
    | cons c rest =>
      rw [hfl] at hv
      simp only [Bool.false_eq_true, false_and, if_neg, if_false] at hv
      have hcv : c = v := by
        simpa using hv
      have hc : c ∈ (catalog.filter (fun mi => goEqualFold mi.aliasName ref)).filter
          (fun mi => mi.runtime.deviceType = d) := by
        rw [hfl]; exact List.mem_cons_self c rest
      have := (List.mem_filter.mp hc).2
      rw [hcv] at this
      simpa using this

/-- C1 (witness): a catalog whose single variant neither id-matches nor
alias-matches the reference "x", so the CPU-filtered alias candidates are empty
and resolution fails with `ErrModelNotInCatalog`. -/
theorem c1_filtered_alias_notfound_witness :
    resolveCatalog false [c1gpu] ("x".toList) (some .cpu) = .error .modelNotInCatalog :=
  (c1_filtered_alias_notfound [c1gpu] ("x".toList) .cpu false
    (by decide) (by decide)).1 (by decide)

/-- C2 (counterexample): for a transport error "boom" of the listing
collaborator, `ListCatalogModels` propagates the error unchanged but
`GetModelInfo` returns `ErrModelNotInCatalog`, a different error value — so the
resolve operation does not surface the collaborator error unchanged. -/
theorem c2_getModelInfo_substitutes_error :
    (listCatalogModels ⟨none, false⟩ (.transportErr ("boom".toList))).1 =
      .error (.other ("boom".toList)) ∧
    (getModelInfo ⟨none, false⟩ (.transportErr ("boom".toList)) ("m".toList) none).1 =
      .error .modelNotInCatalog ∧
    GoError.modelNotInCatalog ≠ GoError.other ("boom".toList) := by decide

/-- C2 (amended): on a cache miss, `ListCatalogModels` surfaces the listing
collaborator's transport and body-parse errors unchanged and turns a
non-success HTTP status into the constructed status-code error, with no retry;
`GetModelInfo`, however, replaces every listing failure with
`ErrModelNotInCatalog`. -/
theorem c2_error_propagation (m : Manager) (e : GoStr) (code : Nat) (ref : GoStr)
    (d : Option DeviceType) (hm : m.catalogModels = none) :
    (listCatalogModels m (.transportErr e)).1 = .error (.other e) ∧
    (listCatalogModels m (.parseErr e)).1 = .error (.other e) ∧
    (listCatalogModels m (.httpStatus code)).1 = .error (.other (statusMsg code)) ∧
    (∀ fetch err, (listCatalogModels m fetch).1 = .error err →
      (getModelInfo m fetch ref d).1 = .error .modelNotInCatalog) := by
  obtain ⟨cm, fb⟩ := m
  simp only at hm
  subst hm
  refine ⟨rfl, rfl, rfl, ?_⟩
  intro fetch err herr
  unfold getModelInfo
  cases hlc : listCatalogModels ⟨none, fb⟩ fetch with
  | mk res m2 =>
    rw [hlc] at herr
    cases res with
    | error ge => rfl
    | ok l => exact absurd herr (by simp)

/-- C2 (witness): the amended propagation facts at the concrete transport
error "boom" on a fresh manager. -/
theorem c2_error_propagation_witness :
    (listCatalogModels ⟨none, false⟩ (.transportErr ("boom".toList))).1 =
      .error (.other ("boom".toList)) ∧
    (getModelInfo ⟨none, false⟩ (.transportErr ("boom".toList)) ("m".toList) none).1 =
      .error .modelNotInCatalog := by
  have h := c2_error_propagation ⟨none, false⟩ ("boom".toList) 500 ("m".toList) none rfl
  exact ⟨h.1, h.2.2.2 _ _ h.1⟩

/-- C3 (counterexample): a snapshot with two variants "p:-5" and "p:-3" whose
lowercased ids start with "p:", version comparator values -5 < -3, and no exact
id match for the unversioned reference "p" — yet resolution returns
`ErrModelNotInCatalog` instead of the variant with the larger version, because
the best-version search starts at -1. -/
theorem c3_negative_versions_fall_through :
    GetVersion c3a.id < GetVersion c3b.id ∧
    goStartsWith (goToLower c3a.id) (goToLower ("p".toList) ++ [':']) = true ∧
    goStartsWith (goToLower c3b.id) (goToLower ("p".toList) ++ [':']) = true ∧
    (∀ mi ∈ [c3a, c3b], goEqualFold mi.id ("p".toList) = false) ∧
    ':' ∉ ("p".toList) ∧
    resolveCatalog false [c3a, c3b] ("p".toList) none = .error .modelNotInCatalog := by
  decide

/-- C3 (amended): for an unversioned reference with no exact id match, when at
least two prefix matches have comparator values v1 < v2 and v2 is non-negative
(a parseable version), resolution returns a prefix-matching variant whose
comparator value is maximal among all prefix matches. -/
theorem c3_best_version (catalog : List ModelInfo) (ref : GoStr)
    (d : Option DeviceType) (fb : Bool) (hnc : ':' ∉ ref)
    (hex : ∀ mi ∈ catalog, goEqualFold mi.id ref = false)
    (m1 m2 : ModelInfo) (h1 : m1 ∈ catalog) (h2 : m2 ∈ catalog)
    (hp1 : goStartsWith (goToLower m1.id) (goToLower ref ++ [':']) = true)
    (hp2 : goStartsWith (goToLower m2.id) (goToLower ref ++ [':']) = true)
    (hlt : GetVersion m1.id < GetVersion m2.id) (hv2 : 0 ≤ GetVersion m2.id) :
    ∃ v, resolveCatalog fb catalog ref d = .ok v ∧ v ∈ catalog ∧
      goStartsWith (goToLower v.id) (goToLower ref ++ [':']) = true ∧
      ∀ w ∈ catalog, goStartsWith (goToLower w.id) (goToLower ref ++ [':']) = true →
        GetVersion w.id ≤ GetVersion v.id := by
  have hfe := findExact_eq_none catalog ref hex
  obtain ⟨inv1, inv2, _, _⟩ :=
    bestPrefixAux_inv (goToLower ref ++ [':']) catalog (-1) none
      (by intro x hx; exact Option.noConfusion hx)
  cases hbp : bestPrefixAux (goToLower ref ++ [':']) catalog (-1) none with
  | none =>
    exfalso
    have hb2 := inv2 m2 h2 hp2
    rw [hbp] at hb2
    simp only [verOf] at hb2
    omega
  | some v =>
    have hpm := inv1 v hbp
    refine ⟨v, ?_, ?_, hpm.1, ?_⟩
    · simp only [resolveCatalog, hfe, hbp]
    · rcases hpm.2 with h | h
      · exact h
      · exact Option.noConfusion h
    · intro w hw hpw
      have hb2 := inv2 w hw hpw
      rw [hbp] at hb2
      simpa only [verOf] using hb2

/-- C3 (witness): the amended statement at a concrete snapshot with prefix
matches "p:1" and "p:2" and reference "p". -/
theorem c3_best_version_witness :
    ∃ v, resolveCatalog false [c3p1, c3p2] ("p".toList) none = .ok v ∧
      v ∈ [c3p1, c3p2] ∧
      goStartsWith (goToLower v.id) (goToLower ("p".toList) ++ [':']) = true ∧
      ∀ w ∈ [c3p1, c3p2],
        goStartsWith (goToLower w.id) (goToLower ("p".toList) ++ [':']) = true →
        GetVersion w.id ≤ GetVersion v.id :=
  c3_best_version [c3p1, c3p2] ("p".toList) none false (by decide) (by decide)
    c3p1 c3p2 (by simp) (by simp) (by decide) (by decide) (by decide) (by decide)

/-- C4 (confirmed): `GetVersion` is a total function; the empty string and ids
without ':' give -1; for ids of the form `name ++ ":" ++ t` where the trailing
segment `t` (itself separator-free) parses as a base-10 integer `n ≥ 0` via
`strconv.Atoi` the result is `n`; when the trailing segment fails to parse the
result is -1. -/
theorem c4_getVersion_contract :
    GetVersion [] = -1 ∧
    (∀ s : GoStr, ':' ∉ s → GetVersion s = -1) ∧
    (∀ (name t : GoStr) (n : Int), 0 ≤ n → goAtoi t = some n → ':' ∉ t →
      GetVersion (name ++ ':' :: t) = n) ∧
    (∀ (name t : GoStr), goAtoi t = none → ':' ∉ t →
      GetVersion (name ++ ':' :: t) = -1) := by
  refine ⟨rfl, ?_, ?_, ?_⟩
  · intro s h
    by_cases hs : s = []
    · simp [GetVersion, hs]
    · simp [GetVersion, hs, h]
  · intro name t n _ hp hnc
    have hne : name ++ ':' :: t ≠ [] := by simp
    have hmem : ':' ∈ name ++ ':' :: t := by simp
    simp only [GetVersion, if_neg hne, if_pos hmem]
    rw [lastSegment_append name t hnc, hp]
  · intro name t hp hnc
    have hne : name ++ ':' :: t ≠ [] := by simp
    have hmem : ':' ∈ name ++ ':' :: t := by simp
    simp only [GetVersion, if_neg hne, if_pos hmem]
    rw [lastSegment_append name t hnc, hp]

/-- C4 (witness): the contract evaluated at "abc" (no separator), "qwen:2"
(parsed version 2) and "a:x" (unparsable trailing segment). -/
theorem c4_getVersion_contract_witness :
    GetVersion ("abc".toList) = -1 ∧
    GetVersion ("qwen".toList ++ ':' :: "2".toList) = 2 ∧
    GetVersion ("a".toList ++ ':' :: "x".toList) = -1 :=
  ⟨c4_getVersion_contract.2.1 ("abc".toList) (by decide),
   c4_getVersion_contract.2.2.1 ("qwen".toList) ("2".toList) 2 (by decide)
     (by decide) (by decide),
   c4_getVersion_contract.2.2.2 ("a".toList) ("x".toList) (by decide) (by decide)⟩

/-- C5 (confirmed): a decode session that reads the stream to end-of-stream
ends with the terminal event computed from the final buffer; that terminal
event is `Failed "No completion response received"` for an empty buffer,
`Failed` with the parse error for an unparsable buffer, `Completed` when the
object parses with `success = true`, and for `success = false` it is `Failed`
with `errorMessage` when that is a string and `Failed "unknown error"` when it
is absent or not a string. -/
theorem c5_eof_terminal_classification (mi : ModelInfo) (lines : List GoStr)
    (buf : GoStr) :
    (downloadEvents mi false false lines).getLast? =
      some (finishDecode mi (decodeLoop lines false []).2) ∧
    (buf = [] → finishDecode mi buf = .failed noCompletionMsg) ∧
    (∀ e, buf ≠ [] → parseJsonObj buf = .error e → finishDecode mi buf = .failed e) ∧
    (∀ ms, buf ≠ [] → parseJsonObj buf = .ok ms →
      jlookup ms successKey = some (.jbool true) →
      finishDecode mi buf = .completedEv mi) ∧
    (∀ ms s, buf ≠ [] → parseJsonObj buf = .ok ms →
      jlookup ms successKey = some (.jbool false) →
      jlookup ms errorMessageKey = some (.jstr s) →
      finishDecode mi buf = .failed s) ∧
    (∀ ms, buf ≠ [] → parseJsonObj buf = .ok ms →
      jlookup ms successKey = some (.jbool false) →
      (∀ s, jlookup ms errorMessageKey ≠ some (.jstr s)) →
      finishDecode mi buf = .failed unknownErrorMsg) := by
  refine ⟨?_, ?_, ?_, ?_, ?_, ?_⟩
  · show ((decodeLoop lines false []).1 ++
        [finishDecode mi (decodeLoop lines false []).2]).getLast? = _
    exact List.getLast?_concat _
  · intro h
    simp [finishDecode, h]
  · intro e hne hp
    simp [finishDecode, hne, hp]
  · intro ms hne hp hs
    have hst : successIsTrue ms = true := by simp [successIsTrue, hs]
    simp [finishDecode, hne, hp, hst]
  · intro ms s hne hp hs hm
    have hst : successIsTrue ms = false := by simp [successIsTrue, hs]
    have hfm : failMsg ms = s := by simp [failMsg, hm]
    simp [finishDecode, hne, hp, hst, hfm]
  · intro ms hne hp hs hnm
    have hst : successIsTrue ms = false := by simp [successIsTrue, hs]
    have hfm : failMsg ms = unknownErrorMsg := by
      unfold failMsg
      cases hm : jlookup ms errorMessageKey with
      | none => rfl
      | some jv =>
        cases jv with
        | jbool b => rfl
        | jstr s => exact absurd hm (hnm s)
        | jnull => rfl
    simp [finishDecode, hne, hp, hst, hfm]

/-- C5 (witness): the classification at concrete buffers — empty, unparsable,
`success: true`, `success: false` with a message, `success: false` without. -/
theorem c5_eof_terminal_witness :
    finishDecode mi0 [] = .failed noCompletionMsg ∧
    finishDecode mi0 ("xx".toList) = .failed jsonErrMsg ∧
    finishDecode mi0 bufTrue = .completedEv mi0 ∧
    finishDecode mi0 bufFalseMsg = .failed ("Download error occurred.".toList) ∧
    finishDecode mi0 bufFalseNoMsg = .failed unknownErrorMsg := by
  refine ⟨(c5_eof_terminal_classification mi0 [] []).2.1 rfl,
    (c5_eof_terminal_classification mi0 [] ("xx".toList)).2.2.1 jsonErrMsg
      (by decide) (by decide),
    (c5_eof_terminal_classification mi0 [] bufTrue).2.2.2.1
      [(successKey, .jbool true)] (by decide) (by decide) (by decide),
    (c5_eof_terminal_classification mi0 [] bufFalseMsg).2.2.2.2.1
      [(successKey, .jbool false),
       (errorMessageKey, .jstr ("Download error occurred.".toList))]
      ("Download error occurred.".toList) (by decide) (by decide) (by decide)
      (by decide),
    (c5_eof_terminal_classification mi0 [] bufFalseNoMsg).2.2.2.2.2
      [(successKey, .jbool false)] (by decide) (by decide) (by decide) ?_⟩
  intro s hs
  rw [show jlookup [(successKey, JVal.jbool false)] errorMessageKey = none from
    by decide] at hs
  exact Option.noConfusion hs

/-- C6 (confirmed): every decode session's event list contains exactly one
terminal event; it is the last event delivered (after which the channel is
closed); all earlier events are non-terminal progress events and are exactly
the per-line events of an initial segment of the stream, in stream order with
no duplication. -/
theorem c6_exactly_one_terminal (mi : ModelInfo) (alreadyCached force : Bool)
    (lines : List GoStr) :
    ((downloadEvents mi alreadyCached force lines).filter isTerminal).length = 1 ∧
    (∃ t, (downloadEvents mi alreadyCached force lines).getLast? = some t ∧
      isTerminal t = true) ∧
    (∃ k, (downloadEvents mi alreadyCached force lines).dropLast =
      ((lines.take k).map perLineEvents).flatten) ∧
    (∀ e ∈ (downloadEvents mi alreadyCached force lines).dropLast,
      isTerminal e = false) := by
  by_cases hc : alreadyCached = true ∧ force = false
  · simp only [downloadEvents, if_pos hc]
    exact ⟨by simp [isTerminal], ⟨.completedEv mi, by simp, rfl⟩, ⟨0, by simp⟩, by simp⟩
  · simp only [downloadEvents, if_neg hc]
    have hnt := decodeLoop_not_terminal lines false []
    refine ⟨?_, ?_, ?_, ?_⟩
    · rw [List.filter_append]
      have h1 : (decodeLoop lines false []).1.filter isTerminal = [] := by
        rw [List.filter_eq_nil_iff]
        intro a ha
        simp [hnt a ha]
      rw [h1]
      simp [finishDecode_isTerminal]
    · exact ⟨finishDecode mi (decodeLoop lines false []).2,
        List.getLast?_concat _, finishDecode_isTerminal _ _⟩
    · rw [List.dropLast_concat]
      exact decodeLoop_events_join lines false []
    · rw [List.dropLast_concat]
      exact hnt

/-- C7 (confirmed): for the stream consisting of the progress line
"Total 0.00% Downloading model.onnx.data", a completion marker line, and the
line with the successful completion object, the decoder emits exactly
`[Progress 0.0, Completed variant]` in that order, the percentage being taken
from the first whitespace-delimited token ending in '%'. -/
theorem c7_concrete_stream (mi : ModelInfo) :
    downloadEvents mi false false [c7Line1, c7Line2, c7Line3] =
      [.progress 0, .completedEv mi] := by
  have h1 : downloadEvents mi false false [c7Line1, c7Line2, c7Line3] =
      [.progress (scanPercent ("0.00".toList)), .completedEv mi] := rfl
  have h2 : scanPercent ("0.00".toList) =
      (1 : ℚ) * (((0 : ℕ) : ℚ) + ((0 : ℕ) : ℚ) / (10 : ℚ) ^ (2 : ℕ)) := rfl
  rw [h1, h2]
  norm_num

/-- C8 (confirmed): after a catalog fetch, when some variant's execution
provider is CUDA-capable every variant whose id contains "-generic-gpu"
(case-insensitively) gets `epOverride = "cuda"` and every other variant is
unchanged; with no CUDA-capable variant the snapshot is unchanged; the
annotation happens in the fetch path of `ListCatalogModels` (which stores the
annotated snapshot) and neither a cached listing nor a resolution call
re-applies it. -/
theorem c8_cuda_override (models : List ModelInfo) (fb : Bool)
    (cached : List ModelInfo) (fetch' : FetchResult) (ref : GoStr)
    (d : Option DeviceType) :
    (hasCUDACapableVariant models = true ↔
      ∃ mi ∈ models, mi.runtime.executionProvider = cudaEP) ∧
    (hasCUDACapableVariant models = true →
      ∀ (i : Nat) (mi : ModelInfo), models[i]? = some mi →
        ((goContains (goToLower mi.id) genericGpuTok = true →
          (annotate models)[i]? = some { mi with epOverride := cudaTok }) ∧
         (goContains (goToLower mi.id) genericGpuTok = false →
          (annotate models)[i]? = some mi))) ∧
    (hasCUDACapableVariant models = false → annotate models = models) ∧
    (listCatalogModels ⟨none, fb⟩ (.body (some models)) =
      (.ok (annotate models), ⟨some (annotate models), fb⟩)) ∧
    (listCatalogModels ⟨some cached, fb⟩ fetch' = (.ok cached, ⟨some cached, fb⟩)) ∧
    ((getModelInfo ⟨some cached, fb⟩ fetch' ref d).2 = ⟨some cached, fb⟩) := by
  refine ⟨?_, ?_, ?_, rfl, rfl, rfl⟩
  · simp [hasCUDACapableVariant]
  · intro hc i mi hmi
    constructor
    · intro hg
      unfold annotate
      rw [if_pos hc, List.getElem?_map, hmi]
      simp [hg]
    · intro hg
      unfold annotate
      rw [if_pos hc, List.getElem?_map, hmi]
      simp [hg]
  · intro hc
    unfold annotate
    rw [if_neg (by simp [hc])]

/-- C8 (witness): with a CUDA-capable variant present the generic-GPU variant
receives `epOverride = "cuda"`; without one, the snapshot is unchanged. -/
theorem c8_cuda_override_witness :
    (annotate [c8g1, c8g2])[0]? = some { c8g1 with epOverride := cudaTok } ∧
    annotate [c8g1] = [c8g1] :=
  ⟨((c8_cuda_override [c8g1, c8g2] false [] (.body none) [] none).2.1
      (by decide) 0 c8g1 (by decide)).1 (by decide),
   (c8_cuda_override [c8g1] false [] (.body none) [] none).2.2.1 (by decide)⟩

/-- C9 (counterexample): a snapshot whose ids "ABC" and "abc" are unique as
strings, where resolving the second variant's own id "abc" returns the first
variant instead — so string-uniqueness of ids does not make own-id resolution
return the same variant. -/
theorem c9_case_insensitive_collision :
    c9A.id ≠ c9a.id ∧ c9a ∈ [c9A, c9a] ∧
    resolveCatalog false [c9A, c9a] c9a.id none = .ok c9A ∧ c9A ≠ c9a := by
  decide

/-- C9 (amended): in a snapshot whose lowered ids are pairwise distinct
(case-insensitive uniqueness), resolving any reference that case-folds to a
variant's id — mixed case and version suffixes included — returns exactly that
variant, for any device filter. -/
theorem c9_resolve_own_id (catalog : List ModelInfo) (v : ModelInfo) (r : GoStr)
    (d : Option DeviceType) (fb : Bool)
    (huniq : (catalog.map (fun mi => goToLower mi.id)).Pairwise (fun a b => a ≠ b))
    (hv : v ∈ catalog) (hr : goEqualFold v.id r = true) :
    resolveCatalog fb catalog r d = .ok v := by
  have h := findExact_unique catalog v r huniq hv hr
  simp only [resolveCatalog, h]

/-- C9 (witness): resolving the mixed-case reference "qwen:1" against the
variant with id "Qwen:1" returns that variant. -/
theorem c9_resolve_own_id_witness :
    resolveCatalog false [c9q] ("qwen:1".toList) none = .ok c9q :=
  c9_resolve_own_id [c9q] c9q ("qwen:1".toList) none false (by decide)
    (by simp) (by decide)

/-- C10 (confirmed): when every prefix match of the reference has comparator
value -1 (unparsable version suffixes), the prefix step selects none of them
even though prefix matches exist, and with no alias match the resolution falls
through to `ErrModelNotInCatalog`. -/
theorem c10_unparsable_prefix_notfound (catalog : List ModelInfo) (ref : GoStr)
    (d : Option DeviceType) (fb : Bool)
    (hex : ∀ mi ∈ catalog, goEqualFold mi.id ref = false)
    (hsome : ∃ mi ∈ catalog,
      goStartsWith (goToLower mi.id) (goToLower ref ++ [':']) = true)
    (hver : ∀ mi ∈ catalog,
      goStartsWith (goToLower mi.id) (goToLower ref ++ [':']) = true →
      GetVersion mi.id = -1)
    (halias : ∀ mi ∈ catalog, goEqualFold mi.aliasName ref = false) :
    resolveCatalog fb catalog ref d = .error .modelNotInCatalog := by
  have hfe := findExact_eq_none catalog ref hex
  have hbp : bestPrefixAux (goToLower ref ++ [':']) catalog (-1) none = none :=
    bestPrefixAux_stay _ catalog (-1) none
      (fun mi hmi hpm => le_of_eq (hver mi hmi hpm))
  have hfilter : catalog.filter (fun mi => goEqualFold mi.aliasName ref) = [] := by
    rw [List.filter_eq_nil_iff]
    intro a ha
    simp [halias a ha]
  simp only [resolveCatalog, hfe, hbp, hfilter]
  cases d <;> rfl

/-- C10 (witness): a catalog containing only "name:v1" (unparsable suffix)
resolved with reference "name" returns `ErrModelNotInCatalog` although a
prefix match exists. -/
theorem c10_unparsable_prefix_witness :
    resolveCatalog false [c10v] ("name".toList) none = .error .modelNotInCatalog :=
  c10_unparsable_prefix_notfound [c10v] ("name".toList) none false (by decide)
    ⟨c10v, by simp, by decide⟩ (by decide) (by decide)

end FoundryLocal
